import Mathlib

/-!
# Verification of the Thiren mini-DAW core

Shallow embedding of the timeline data model, the mutation/undo engine
(`app/core/state.py`, `app/core/refs.py`, `app/core/tools/edit_tools.py`,
`app/core/tools/drum_tools.py`) and the mixdown renderer
(`app/core/audio/mixer.py`).

Modelling conventions:
* Python `int` is `ℤ`, Python `float` is `ℚ` (exact arithmetic stands in for
  IEEE doubles; no claim below depends on rounding of binary floats).
* Python lists are Lean `List`s.  `list.append`/`list.pop()` operate on the
  Python list's end; the undo stack is modelled with the list HEAD as the
  stack top, which preserves the LIFO semantics exactly.
* `uuid.uuid4().hex[:10]` in `new_id` is a fresh-id generator; it is modelled
  by a deterministic counter (`World.next_id`) threaded through the engine.
* Exceptions that can escape a tool (`ValueError` from `parse_time`) are
  modelled by returning the raised message next to the (already mutated)
  world, because the snapshot push happens before the raise and persists.
* Python `int(str)` is modelled for strings made of optional surrounding
  whitespace, an optional single sign and decimal digits; CPython extras
  (underscore digit separators, non-ASCII digits) are not modelled and no
  claim depends on them.
-/

set_option autoImplicit false

namespace Thiren

/-! ## Character / string utilities shared by `parse_time`, `int()` and
`_parse_pitch` -/

/-- Whitespace as stripped by Python `str.strip` / `int()` (core cases). -/
def isWS (c : Char) : Bool :=
  (c == ' ') || (c == '\t') || (c == '\n') || (c == '\r')

/-- Python `str.strip()` on a character list. -/
def pyStrip (l : List Char) : List Char :=
  ((l.dropWhile isWS).reverse.dropWhile isWS).reverse

/-- Python `str.upper()` on a character list. -/
def pyUpper (l : List Char) : List Char := l.map Char.toUpper

/-- Value of a digit string (caller checks that all chars are digits). -/
def digitsVal (l : List Char) : ℕ :=
  l.foldl (fun a c => 10 * a + (c.toNat - 48)) 0

/-- Decimal digit run: `some` value iff nonempty and all digits. -/
def digitsVal? (l : List Char) : Option ℕ :=
  if l ≠ [] ∧ l.all Char.isDigit then some (digitsVal l) else none

/-- Python `int(s)` on a character list: strip, optional sign, digits. -/
def pyInt? (l : List Char) : Option ℤ :=
  match pyStrip l with
  | [] => none
  | c :: rest =>
    if c = '-' then (digitsVal? rest).map (fun n => -(n : ℤ))
    else if c = '+' then (digitsVal? rest).map (fun n => (n : ℤ))
    else (digitsVal? (c :: rest)).map (fun n => (n : ℤ))

/-- Python `str.split(ch)` (always returns at least one piece). -/
def splitCh (ch : Char) : List Char → List (List Char)
  | [] => [[]]
  | c :: cs =>
    if c = ch then [] :: splitCh ch cs
    else
      match splitCh ch cs with
      | [] => [[c]]
      | p :: ps => (c :: p) :: ps

/-- Fuel-driven digit expansion; `fuel ≥ n` always suffices because the
quotient shrinks strictly whenever a recursive step is taken. -/
def natDigitsGo : ℕ → ℕ → List Char
  | 0, n => [Nat.digitChar n]
  | fuel + 1, n =>
    if n < 10 then [Nat.digitChar n]
    else natDigitsGo fuel (n / 10) ++ [Nat.digitChar (n % 10)]

/-- Decimal digits of a natural number, most significant first
(the rendering used by Python `str(int)` for nonnegative values). -/
def natDigits (n : ℕ) : List Char := natDigitsGo n n

/-- Python `str(int)` rendering (used for the octave in an f-string). -/
def intRepr (o : ℤ) : List Char :=
  if o < 0 then '-' :: natDigits (-o).toNat else natDigits o.toNat

/-- The ten decimal digit characters. -/
def digitChars : List Char := ['0', '1', '2', '3', '4', '5', '6', '7', '8', '9']

/-- The bar component of a `"bar:step"` time string: the text before the
first `':'`. -/
def barComp (s : String) : List Char :=
  s.toList.takeWhile (fun c => c != ':')

/-- The step component of a `"bar:step"` time string: the text after the
first `':'`. -/
def stepComp (s : String) : List Char :=
  (s.toList.dropWhile (fun c => c != ':')).tail

/-! ## Timeline data model (`app/core/state.py`) -/

/-- `TrackType = Literal["drum", "melodic"]`. -/
inductive TrackType where
  | drum
  | melodic
deriving DecidableEq, Repr

/-- `ProjectMeta` dataclass.  The source stores the time signature as a
two-element list `[num, den]`; it is modelled as the two fields. -/
structure ProjectMeta where
  ts_num : ℤ
  ts_den : ℤ
  bpm : ℤ
  bars : ℤ
  ticks_per_beat : ℤ
  swing : ℚ
deriving DecidableEq, Repr

/-- `ticks_per_bar` property: `time_signature[0] * ticks_per_beat`. -/
def ProjectMeta.ticks_per_bar (m : ProjectMeta) : ℤ :=
  m.ts_num * m.ticks_per_beat

/-- `total_ticks` property: `bars * ticks_per_bar`. -/
def ProjectMeta.total_ticks (m : ProjectMeta) : ℤ :=
  m.bars * m.ticks_per_bar

/-- `Track` dataclass (with the Step5 `current_sample_id` field, which is the
definition in force at the end of `state.py`). -/
structure Track where
  id : ℤ
  name : String
  type : TrackType
  volume : ℚ
  pan : ℚ
  mute : Bool
  solo : Bool
  sample_name : String
  current_sample_id : String
deriving DecidableEq, Repr

/-- `Event` dataclass. -/
structure Event where
  id : String
  track_id : ℤ
  start_tick : ℤ
  duration_tick : ℤ
  type : TrackType
  sample_id : String
  velocity : ℚ
  pitch : Option String
deriving DecidableEq, Repr

/-- `ProjectState` dataclass.  The `samples` dict feeds file-system path
resolution in the mixer; sample resolution is modelled by the loader oracle
passed to `render_mix`, so the dict itself is not represented. -/
structure ProjectState where
  id : String
  name : String
  meta : ProjectMeta
  tracks : List Track
  events : List Event
deriving DecidableEq, Repr

/-- Argument of `parse_time`: a raw tick `int` or a `"bar:step"` string. -/
inductive TimeInput where
  | tick (t : ℤ)
  | str (s : String)
deriving DecidableEq, Repr

/-- `ProjectState.parse_time`.  An `int` is already a tick; a string must
contain `':'`, unpack into exactly two pieces and have integer pieces, else
a `ValueError` is raised (modelled as `.error`). -/
def ProjectState.parse_time (st : ProjectState) : TimeInput → Except String ℤ
  | .tick t => .ok t
  | .str s =>
    let cs := s.toList
    if ':' ∈ cs then
      match splitCh ':' cs with
      | [bar_s, step_s] =>
        match pyInt? bar_s, pyInt? step_s with
        | some b, some k => .ok ((b - 1) * st.meta.ticks_per_bar + (k - 1))
        | _, _ => .error "invalid literal for int with base 10"
      | _ => .error "values to unpack"
    else .error ("Invalid time format: " ++ s)

/-- `ProjectState.clamp_tick`: clamp into `[0, total_ticks]`. -/
def ProjectState.clamp_tick (st : ProjectState) (tick : ℤ) : ℤ :=
  max 0 (min tick st.meta.total_ticks)

/-! ## Reference context (`app/core/refs.py`) and the engine world -/

/-- `ExecContext` dataclass.  The two reference histories keep Python order
(append at the end, read the last element); the undo stack keeps its top at
the list head (Python appends and pops at the end). -/
structure ExecContext where
  last_created_event_ids : List String
  last_selected_event_ids : List String
  history_events_stack : List (List Event)
deriving DecidableEq, Repr

/-- `ExecContext.last_created`: `ids[-1]` or `None`. -/
def ExecContext.last_created (c : ExecContext) : Option String :=
  c.last_created_event_ids.getLast?

/-- `ExecContext.last_selected`: `ids[-1]` or `None`. -/
def ExecContext.last_selected (c : ExecContext) : Option String :=
  c.last_selected_event_ids.getLast?

/-- Mutable world threaded through every tool: the project state, the
execution context and the fresh-id counter standing in for `uuid4`. -/
structure World where
  state : ProjectState
  ctx : ExecContext
  next_id : ℕ
deriving DecidableEq, Repr

/-- `new_id(prefix)`: modelled as `prefix ++ "_" ++ counter`. -/
def new_id (pre : String) (n : ℕ) : String :=
  pre ++ "_" ++ String.mk (natDigits n)

/-! ## Mutation & undo engine (`app/core/tools/edit_tools.py`) -/

/-- `_push_undo_snapshot`: push a value copy of `state.events` (the source
deep-copies the event dicts and rebuilds `Event` objects on undo, which is
value identity here). -/
def push_undo_snapshot (w : World) : World :=
  { w with ctx :=
      { w.ctx with history_events_stack := w.state.events :: w.ctx.history_events_stack } }

/-- Replace the event collection. -/
def setEvents (w : World) (evs : List Event) : World :=
  { w with state := { w.state with events := evs } }

/-- `undo(steps)`: pop up to `steps` snapshots, restoring `state.events`
from each; stop silently when the stack empties. -/
def undo (w : World) : ℕ → World
  | 0 => w
  | steps + 1 =>
    match w.ctx.history_events_stack with
    | [] => w
    | snap :: rest =>
      undo { w with
              state := { w.state with events := snap },
              ctx := { w.ctx with history_events_stack := rest } } steps

/-- Target resolution shared by move/delete/set_pitch/transpose: an explicit
id wins, otherwise the `"last_created"` / `"last_selected"` reference is read
from the context.  (The source checks the two string cases in an
`if`/`elif` chain on the same value, so the order is immaterial.) -/
def resolve_target (ctx : ExecContext) (event_id event_ref : Option String) :
    Option String :=
  match event_id with
  | some tid => some tid
  | none =>
    match event_ref with
    | some r =>
      if r = "last_created" then ctx.last_created
      else if r = "last_selected" then ctx.last_selected
      else none
    | none => none

/-- First event with the given id (`next(e for e in events if e.id == tid)`). -/
def findEvent (evs : List Event) (tid : String) : Option Event :=
  evs.find? (fun e => e.id == tid)

/-- Mutating the object returned by `next(...)` updates the first event in
the list with the given id and leaves everything else in place. -/
def updateFirst (evs : List Event) (tid : String) (f : Event → Event) :
    List Event :=
  match evs with
  | [] => []
  | e :: rest => if e.id == tid then f e :: rest else e :: updateFirst rest tid f

/-- `place_drum`.  The snapshot is pushed before `parse_time`, so a raised
`ValueError` (first component) leaves the pushed snapshot in place. -/
def place_drum (w : World) (track_id : ℤ) (start : TimeInput)
    (duration_tick : ℤ) (sample_id : String) (velocity : ℚ) :
    Option String × World :=
  let w := push_undo_snapshot w
  match w.state.parse_time start with
  | .error e => (some e, w)
  | .ok t =>
    let start_tick := w.state.clamp_tick t
    let dur := max 1 duration_tick
    let eid := new_id "e" w.next_id
    let ev : Event :=
      ⟨eid, track_id, start_tick, dur, .drum, sample_id, velocity, none⟩
    (none,
      { w with
        state := { w.state with events := w.state.events ++ [ev] },
        ctx := { w.ctx with
                  last_created_event_ids := w.ctx.last_created_event_ids ++ [eid] },
        next_id := w.next_id + 1 })

/-- `place_note` (Step5 revision): an omitted `sample_id` falls back to the
track's `current_sample_id`, then to `"bass_A1_001"` (empty string is falsy). -/
def place_note (w : World) (track_id : ℤ) (start : TimeInput)
    (duration_tick : ℤ) (sample_id : Option String) (pitch : String)
    (velocity : ℚ) : Option String × World :=
  let w := push_undo_snapshot w
  match w.state.parse_time start with
  | .error e => (some e, w)
  | .ok t =>
    let start_tick := w.state.clamp_tick t
    let dur := max 1 duration_tick
    let sid :=
      match sample_id with
      | some s => s
      | none =>
        match w.state.tracks.find? (fun tr => tr.id == track_id) with
        | some tr => if tr.current_sample_id ≠ "" then tr.current_sample_id
                     else "bass_A1_001"
        | none => "bass_A1_001"
    let eid := new_id "e" w.next_id
    let ev : Event :=
      ⟨eid, track_id, start_tick, dur, .melodic, sid, velocity, some pitch⟩
    (none,
      { w with
        state := { w.state with events := w.state.events ++ [ev] },
        ctx := { w.ctx with
                  last_created_event_ids := w.ctx.last_created_event_ids ++ [eid] },
        next_id := w.next_id + 1 })

/-- `move_event`: `if not target_id` treats both `None` and `""` as no
target; a missing event is a silent no-op (snapshot already pushed). -/
def move_event (w : World) (event_id event_ref : Option String)
    (delta_tick : ℤ) : World :=
  let w := push_undo_snapshot w
  match resolve_target w.ctx event_id event_ref with
  | none => w
  | some tid =>
    if tid = "" then w
    else
      match findEvent w.state.events tid with
      | none => w
      | some _ =>
        setEvents w (updateFirst w.state.events tid
          (fun e => { e with start_tick := w.state.clamp_tick (e.start_tick + delta_tick) }))

/-- `delete_event`: list comprehension keeps every event whose id differs. -/
def delete_event (w : World) (event_id event_ref : Option String) : World :=
  let w := push_undo_snapshot w
  match resolve_target w.ctx event_id event_ref with
  | none => w
  | some tid =>
    if tid = "" then w
    else setEvents w (w.state.events.filter (fun e => e.id != tid))

/-- `set_event_start` (explicit id only): clamp and assign. -/
def set_event_start (w : World) (event_id : String) (start_tick : ℤ) : World :=
  let w := push_undo_snapshot w
  match findEvent w.state.events event_id with
  | none => w
  | some _ =>
    setEvents w (updateFirst w.state.events event_id
      (fun e => { e with start_tick := w.state.clamp_tick start_tick }))

/-- `set_pitch`: no-op unless the resolved event exists and is melodic; the
pitch string is stored verbatim, with no parsing or validation. -/
def set_pitch (w : World) (event_id event_ref : Option String)
    (pitch : String) : World :=
  let w := push_undo_snapshot w
  match resolve_target w.ctx event_id event_ref with
  | none => w
  | some tid =>
    if tid = "" then w
    else
      match findEvent w.state.events tid with
      | none => w
      | some ev =>
        if ev.type = .melodic then
          setEvents w (updateFirst w.state.events tid
            (fun e => { e with pitch := some pitch }))
        else w

/-! ## Pitch arithmetic (`edit_tools.py`) -/

/-- `_NOTE_ORDER` (the twelve-tone chromatic spelling, written here as two
halves). -/
def note_order : List String :=
  ["C", "C#", "D", "D#", "E", "F"] ++ ["F#", "G", "G#", "A", "A#", "B"]

/-- `_parse_pitch` on a character list: strip, upper, note letter with an
optional sharp, integer octave. -/
def parse_pitch_chars (l : List Char) : Option (ℕ × ℤ) :=
  match pyUpper (pyStrip l) with
  | c0 :: c1 :: rest =>
    if c1 = '#' then
      match note_order.indexOf? (String.mk [c0, '#']) with
      | some i => (pyInt? rest).map (fun o => (i, o))
      | none => none
    else
      match note_order.indexOf? (String.mk [c0]) with
      | some i => (pyInt? (c1 :: rest)).map (fun o => (i, o))
      | none => none
  | _ => none

/-- `_parse_pitch`. -/
def parse_pitch (p : String) : Option (ℕ × ℤ) :=
  parse_pitch_chars p.toList

/-- `_pitch_to_str`: f-string `NOTE_ORDER[i]` followed by `str(octave)`. -/
def pitch_to_str (i : ℕ) (o : ℤ) : String :=
  String.mk ((note_order.getD i "").toList ++ intRepr o)

/-- `transpose_pitch`: clamp the total at 0, then floor-divide by 12.  After
the clamp the total is nonnegative, so Python `//`/`%` agree with natural
division. -/
def transpose_pitch (pitch : String) (semitone : ℤ) : Option String :=
  match parse_pitch pitch with
  | none => none
  | some (i, o) =>
    let total := o * 12 + (i : ℤ) + semitone
    let total := if total < 0 then 0 else total
    let t := total.toNat
    some (pitch_to_str (t % 12) ((t / 12 : ℕ) : ℤ))

/-- `transpose_event`: no-op unless resolved, melodic and with a truthy
pitch; the transposed pitch is only stored when itself truthy. -/
def transpose_event (w : World) (event_id event_ref : Option String)
    (semitone : ℤ) : World :=
  let w := push_undo_snapshot w
  match resolve_target w.ctx event_id event_ref with
  | none => w
  | some tid =>
    if tid = "" then w
    else
      match findEvent w.state.events tid with
      | none => w
      | some ev =>
        if ev.type = .melodic then
          match ev.pitch with
          | none => w
          | some p =>
            if p = "" then w
            else
              match transpose_pitch p semitone with
              | none => w
              | some np =>
                if np = "" then w
                else
                  setEvents w (updateFirst w.state.events tid
                    (fun e => { e with pitch := some np }))
        else w

/-- `toggle_drum_step`: delete the first matching drum event (same track,
same sample, start within tolerance) or create a new one. -/
def toggle_drum_step (w : World) (track_id : ℤ) (start_tick : ℤ)
    (sample_id : String) (duration_tick : ℤ) (velocity : ℚ)
    (tolerance_tick : ℤ) : World :=
  let w := push_undo_snapshot w
  let st := w.state.clamp_tick start_tick
  let dur := max 1 duration_tick
  match w.state.events.findIdx? (fun e =>
      (e.type == TrackType.drum) && (e.track_id == track_id) &&
      (e.sample_id == sample_id) && decide (|e.start_tick - st| ≤ tolerance_tick)) with
  | some i => setEvents w (w.state.events.eraseIdx i)
  | none =>
    let eid := new_id "e" w.next_id
    let ev : Event := ⟨eid, track_id, st, dur, .drum, sample_id, velocity, none⟩
    { w with
      state := { w.state with events := w.state.events ++ [ev] },
      ctx := { w.ctx with
                last_created_event_ids := w.ctx.last_created_event_ids ++ [eid] },
      next_id := w.next_id + 1 }

/-- `apply_drum_pattern`: pushes its own snapshot and then calls
`toggle_drum_step` once per offset (each of those pushes another snapshot).
The `range(start, stop)` loop is the integer list `[start, stop)`. -/
def apply_drum_pattern (w : World) (bars : ℤ) (pattern : String)
    (base_bar : ℤ) : World :=
  let w := push_undo_snapshot w
  let tbar := w.state.meta.ticks_per_bar
  let total_bars := w.state.meta.bars
  let nbars := max 1 (min bars total_bars)
  let base := max 1 (min base_bar total_bars)
  let start_bar_idx := base - 1
  let track_id : ℤ := 1
  let tick_at : ℤ → ℤ → ℤ := fun b s => b * tbar + (s - 1)
  let lo := start_bar_idx.toNat
  let hi := (min (start_bar_idx + nbars) total_bars).toNat
  let bar_list : List ℤ := (List.range' lo (hi - lo)).map (fun b => (b : ℤ))
  if pattern = "four_on_the_floor" then
    bar_list.foldl (fun w b =>
      [(1 : ℤ), 5, 9, 13].foldl (fun w s =>
        toggle_drum_step w track_id (tick_at b s) "drum_kick_001" 1 (9/10) 0) w) w
  else if pattern = "backbeat" then
    bar_list.foldl (fun w b =>
      let w := [(1 : ℤ), 9].foldl (fun w s =>
        toggle_drum_step w track_id (tick_at b s) "drum_kick_001" 1 (9/10) 0) w
      [(5 : ℤ), 13].foldl (fun w s =>
        toggle_drum_step w track_id (tick_at b s) "drum_snare_001" 1 (9/10) 0) w) w
  else if pattern = "hihat_8th" then
    bar_list.foldl (fun w b =>
      [(1 : ℤ), 3, 5, 7, 9, 11, 13, 15].foldl (fun w s =>
        toggle_drum_step w track_id (tick_at b s) "drum_hat_001" 1 (9/10) 0) w) w
  else w

/-! ## Drum tools (`app/core/tools/drum_tools.py`) -/

/-- `DrumName = Literal["kick", "snare", "hihat"]`. -/
inductive DrumName where
  | kick
  | snare
  | hihat
deriving DecidableEq, Repr

/-- `DRUM_SAMPLE_ID`. -/
def drum_sample_id : DrumName → String
  | .kick => "drum_kick_001"
  | .snare => "drum_snare_001"
  | .hihat => "drum_hihat_001"

/-- `toggle_drum`: exact-position toggle on one drum instrument. -/
def toggle_drum (w : World) (track_id : ℤ) (start_tick : ℤ) (drum : DrumName)
    (duration_tick : ℤ) (velocity : ℚ) : World :=
  let w := push_undo_snapshot w
  let st := w.state.clamp_tick start_tick
  let sample_id := drum_sample_id drum
  match w.state.events.findIdx? (fun e =>
      (e.track_id == track_id) && (e.type == TrackType.drum) &&
      (e.start_tick == st) && (e.sample_id == sample_id)) with
  | some i => setEvents w (w.state.events.eraseIdx i)
  | none =>
    let eid := new_id "e" w.next_id
    let ev : Event :=
      ⟨eid, track_id, st, max 1 duration_tick, .drum, sample_id, velocity, none⟩
    { w with
      state := { w.state with events := w.state.events ++ [ev] },
      ctx := { w.ctx with
                last_created_event_ids := w.ctx.last_created_event_ids ++ [eid] },
      next_id := w.next_id + 1 }

/-- Create step of `apply_pattern_four` for one `(bar, beat-start)` slot:
skip when a matching event already exists, otherwise append a fresh event.
(The `created` counter returned by the source is not used by any claim.) -/
def pattern_four_step (track_id : ℤ) (sample_id : String) (velocity : ℚ)
    (w : World) (start_tick : ℤ) : World :=
  if w.state.events.any (fun e =>
      (e.track_id == track_id) && (e.type == TrackType.drum) &&
      (e.start_tick == start_tick) && (e.sample_id == sample_id)) then w
  else
    let eid := new_id "e" w.next_id
    let ev : Event :=
      ⟨eid, track_id, start_tick, 1, .drum, sample_id, velocity, none⟩
    { w with
      state := { w.state with events := w.state.events ++ [ev] },
      ctx := { w.ctx with
                last_created_event_ids := w.ctx.last_created_event_ids ++ [eid] },
      next_id := w.next_id + 1 }

/-- `apply_pattern_four`: one snapshot, optional overwrite sweep, then the
skip-if-exists creation loop over every bar of the project. -/
def apply_pattern_four (w : World) (track_id : ℤ) (drum : DrumName)
    (velocity : ℚ) (overwrite : Bool) : World :=
  let w := push_undo_snapshot w
  let tbar := w.state.meta.ticks_per_bar
  let bars := w.state.meta.bars
  let tpb := w.state.meta.ticks_per_beat
  let beat_starts : List ℤ := [0, tpb, 2 * tpb, 3 * tpb]
  let sample_id := drum_sample_id drum
  let bar_list : List ℤ := (List.range bars.toNat).map (fun b => (b : ℤ))
  let w :=
    if overwrite then
      setEvents w (w.state.events.filter (fun e =>
        !((e.track_id == track_id) && (e.type == TrackType.drum) &&
          (e.sample_id == sample_id) &&
          bar_list.any (fun b =>
            beat_starts.any (fun s => e.start_tick == b * tbar + s)))))
    else w
  bar_list.foldl (fun w b =>
    beat_starts.foldl (fun w s =>
      pattern_four_step track_id sample_id velocity w (b * tbar + s)) w) w

/-! ## Mixdown renderer (`app/core/audio/mixer.py`)

The renderer is modelled up to its two external boundaries:
* sample loading (`_find_sample_path` + `sf.read` + the polyphase resample of
  `_load_wav` + `_ensure_stereo`) is a `loadSample` oracle returning stereo
  frames already at the render rate, `none` when the path does not resolve —
  the source skips such events silently;
* the constant-power pan factors `cos((pan+1)·π/4)`, `sin((pan+1)·π/4)` are
  transcendental, so the pair of channel factors is a `panLaw` parameter
  applied to the clipped pan (no claim constrains their numeric value).
Audio samples are `ℚ`; NumPy float64 arithmetic is modelled exactly. -/

/-- `RenderRegion` dataclass. -/
structure RenderRegion where
  bar_start : ℤ
  bars : ℤ
deriving DecidableEq, Repr

/-- `_ticks_to_seconds`: `(ticks / ticks_per_beat) * (60 / bpm)`. -/
def ticks_to_seconds (ticks : ℤ) (bpm : ℚ) (tpb : ℤ) : ℚ :=
  (ticks / (tpb : ℚ)) * (60 / bpm)

/-- Region resolution: full project, or `bars` bars from `bar_start`
(1-based), clipped to the project end. -/
def region_range (st : ProjectState) : Option RenderRegion → ℤ × ℤ
  | none => (0, st.meta.total_ticks)
  | some r =>
    let bar0 := max 1 r.bar_start - 1
    let rbars := max 1 r.bars
    let s := bar0 * st.meta.ticks_per_bar
    (s, min st.meta.total_ticks (s + rbars * st.meta.ticks_per_bar))

/-- Active-track rule: when any track is soloed only soloed tracks play,
otherwise every non-muted track plays; an unknown track id is inactive. -/
def track_active (tracks : List Track) (solo_on : Bool) (track_id : ℤ) : Bool :=
  match tracks.find? (fun t => t.id == track_id) with
  | none => false
  | some t => if solo_on then t.solo else !t.mute

/-- Truncate to `n` frames or zero-pad up to `n` frames. -/
def trunc_pad (frames : List (ℚ × ℚ)) (n : ℕ) : List (ℚ × ℚ) :=
  if frames.length > n then frames.take n
  else frames ++ List.replicate (n - frames.length) ((0 : ℚ), (0 : ℚ))

/-- `np.clip(pan, -1.0, 1.0)`. -/
def clip_pan (pan : ℚ) : ℚ := max (-1) (min 1 pan)

/-- `float(getattr(ev, "velocity", 1.0) or 1.0)`: the dataclass always
carries a velocity, and Python `or` replaces the falsy value `0.0` by
`1.0`. -/
def event_vel (v : ℚ) : ℚ := if v = 0 then 1 else v

/-- Gain stage: `gain = float(tr.volume) * vel`. -/
def event_gain (volume v : ℚ) : ℚ := volume * event_vel v

/-- `int(np.round(x))`: round half to even (NumPy banker's rounding). -/
def np_round (x : ℚ) : ℤ :=
  let n := ⌊x⌋
  let fr := x - n
  if fr < 1/2 then n
  else if 1/2 < fr then n + 1
  else if n % 2 = 0 then n else n + 1

/-- `master[start_i:end_i] += audio[:end_i - start_i]`: add frames into the
buffer at an offset, dropping whatever extends past the buffer's end. -/
def add_into : List (ℚ × ℚ) → ℕ → List (ℚ × ℚ) → List (ℚ × ℚ)
  | [], _, _ => []
  | buf, _, [] => buf
  | b :: bs, 0, x :: xs => (b.1 + x.1, b.2 + x.2) :: add_into bs 0 xs
  | b :: bs, i + 1, xs => b :: add_into bs i xs

/-- `np.max(np.abs(master))` with `0.0` for an empty buffer. -/
def peak_abs (buf : List (ℚ × ℚ)) : ℚ :=
  buf.foldl (fun a f => max a (max |f.1| |f.2|)) 0

/-- Master safety stage: scale by `0.98 / peak` when the peak exceeds
`0.98`. -/
def master_limit (buf : List (ℚ × ℚ)) : List (ℚ × ℚ) :=
  let peak := peak_abs buf
  if peak > 49/50 then
    buf.map (fun f => (f.1 * (49/50 / peak), f.2 * (49/50 / peak)))
  else buf

/-- `render_mix_to_wav` up to the final file write: returns the stereo
master buffer.  Buffer length is `int(np.ceil(total_sec * sr)) + 1` frames
(for a nonnegative argument `int(np.ceil(x))` is the integer ceiling). -/
def render_mix (state : ProjectState)
    (loadSample : String → Option (List (ℚ × ℚ)))
    (panLaw : ℚ → ℚ × ℚ) (region : Option RenderRegion) (sr : ℤ) :
    List (ℚ × ℚ) :=
  let bpm : ℚ := (state.meta.bpm : ℚ)
  let tpb := state.meta.ticks_per_beat
  let r := region_range state region
  let start_tick := r.1
  let end_tick := r.2
  let solo_on := state.tracks.any (fun t => t.solo)
  let region_ticks := max 0 (end_tick - start_tick)
  let total_sec := ticks_to_seconds region_ticks bpm tpb
  let total_samples : ℕ := (⌈total_sec * (sr : ℚ)⌉ + 1).toNat
  let master := List.replicate total_samples ((0 : ℚ), (0 : ℚ))
  let master := state.events.foldl (fun master ev =>
    if ev.start_tick < start_tick ∨ ev.start_tick ≥ end_tick then master
    else if ¬ track_active state.tracks solo_on ev.track_id then master
    else
      match state.tracks.find? (fun t => t.id == ev.track_id) with
      | none => master
      | some tr =>
        match loadSample ev.sample_id with
        | none => master
        | some audio0 =>
          let dur_ticks := max 1 ev.duration_tick
          let ev_len := (⌈ticks_to_seconds dur_ticks bpm tpb * (sr : ℚ)⌉).toNat
          let audio1 := trunc_pad audio0 ev_len
          let gain := event_gain tr.volume ev.velocity
          let audio2 := audio1.map (fun f => (f.1 * gain, f.2 * gain))
          let pg := panLaw (clip_pan tr.pan)
          let audio3 := audio2.map (fun f => (f.1 * pg.1, f.2 * pg.2))
          let start_i := np_round (ticks_to_seconds (ev.start_tick - start_tick) bpm tpb * (sr : ℚ))
          if start_i ≥ (total_samples : ℤ) then master
          else add_into master start_i.toNat audio3) master
  master_limit master

/-! ## Concrete fixtures used by scenario theorems, witnesses and
counterexamples -/

/-- 4/4, 120 BPM, 1 bar, 4 ticks per beat (16 ticks per bar). -/
def meta0 : ProjectMeta := ⟨4, 4, 120, 1, 4, 0⟩

/-- Empty scenario project over `meta0`. -/
def state0 : ProjectState := ⟨"p", "p", meta0, [], []⟩

/-- Fresh world: empty events, empty context, id counter at 0. -/
def world0 : World := ⟨state0, ⟨[], [], []⟩, 0⟩

/-- World holding one kick event with a uuid-style id, for the
delete-then-recreate direction of the toggle involution. -/
def world_kick : World :=
  ⟨⟨"p", "p", meta0, [], [⟨"k0", 1, 0, 1, .drum, "drum_kick_001", 9/10, none⟩]⟩,
   ⟨[], [], []⟩, 0⟩

/-- World whose `last_created` reference names an id absent from the event
collection (the situation created by undoing a creation). -/
def world_ghost : World :=
  ⟨state0, ⟨["ghost"], [], []⟩, 0⟩

/-- World holding one melodic event, for the verbatim `set_pitch` witness. -/
def world_note : World :=
  ⟨⟨"p", "p", meta0, [], [⟨"m1", 2, 0, 4, .melodic, "bass_A1_001", 17/20, some "A1"⟩]⟩,
   ⟨[], [], []⟩, 0⟩

/-- Tiny render fixture: one beat per bar, one tick per beat, 60 BPM,
1 bar — the region below is a single tick, i.e. exactly one second. -/
def state_render : ProjectState :=
  ⟨"r", "r", ⟨1, 4, 60, 1, 1, 0⟩,
   [⟨1, "Drums", .drum, 3/4, 0, false, false, "", "drum_kick_001"⟩],
   []⟩

/-! ## List helpers -/

theorem find?_append_of_none {α : Type} (p : α → Bool) (la lb : List α)
    (h : ∀ x ∈ la, p x = false) :
    List.find? p (la ++ lb) = List.find? p lb := by
  induction la with
  | nil => rfl
  | cons a as ih =>
    have ha : p a = false := h a (by simp)
    rw [List.cons_append, List.find?_cons_of_neg _ (by simp [ha])]
    exact ih (fun x hx => h x (by simp [hx]))

theorem findIdx?_eq_none_of_all {α : Type} (p : α → Bool) (l : List α)
    (h : ∀ x ∈ l, p x = false) : l.findIdx? p = none := by
  induction l with
  | nil => rfl
  | cons a as ih =>
    have ha : p a = false := h a (by simp)
    have has := ih (fun x hx => h x (by simp [hx]))
    rw [List.findIdx?_cons, if_neg (by simp [ha]), List.findIdx?_succ, has]
    rfl

theorem findIdx?_append_singleton {α : Type} (p : α → Bool) (l : List α)
    (y : α) (h : ∀ x ∈ l, p x = false) (hy : p y = true) :
    (l ++ [y]).findIdx? p = some l.length := by
  induction l with
  | nil => simp [List.findIdx?_cons, hy]
  | cons a as ih =>
    have ha : p a = false := h a (by simp)
    have has := ih (fun x hx => h x (by simp [hx]))
    rw [List.cons_append, List.findIdx?_cons, if_neg (by simp [ha]),
      List.findIdx?_succ, has]
    rfl

theorem eraseIdx_append_length {α : Type} (l : List α) (y : α) :
    (l ++ [y]).eraseIdx l.length = l := by
  induction l with
  | nil => rfl
  | cons a as ih => simpa [List.eraseIdx] using ih

theorem updateFirst_append (la lb : List Event) (e : Event) (tid : String)
    (f : Event → Event) (h : ∀ x ∈ la, x.id ≠ tid) (he : e.id = tid) :
    updateFirst (la ++ e :: lb) tid f = la ++ f e :: lb := by
  induction la with
  | nil => simp [updateFirst, he]
  | cons a as ih =>
    have ha : ¬ (a.id == tid) = true := by
      simpa using h a (by simp)
    simp only [List.cons_append, updateFirst, Bool.not_eq_true] at *
    rw [if_neg (by simpa using ha)]
    simp [ih (fun x hx => h x (by simp [hx]))]

/-! ## Undo / snapshot-stack lemmas -/

theorem undo_one_of_stack (wo w : World) (rest : List (List Event))
    (h : wo.ctx.history_events_stack = w.state.events :: rest) :
    (undo wo 1).state.events = w.state.events := by
  simp [undo, h]

theorem undo_ctx_histories (steps : ℕ) :
    ∀ w : World,
      (undo w steps).ctx.last_created_event_ids = w.ctx.last_created_event_ids ∧
      (undo w steps).ctx.last_selected_event_ids = w.ctx.last_selected_event_ids := by
  induction steps with
  | zero => intro w; exact ⟨rfl, rfl⟩
  | succ n ih =>
    intro w
    simp only [undo]
    split
    · exact ⟨rfl, rfl⟩
    · simpa using ih _

theorem foldl_stack {α : Type} (f : World → α → World)
    (hf : ∀ w x, (f w x).ctx.history_events_stack = w.ctx.history_events_stack)
    (l : List α) (w : World) :
    (l.foldl f w).ctx.history_events_stack = w.ctx.history_events_stack := by
  induction l generalizing w with
  | nil => rfl
  | cons x xs ih => rw [List.foldl_cons, ih, hf]

theorem place_drum_stack (w : World) (tid : ℤ) (st : TimeInput) (dur : ℤ)
    (sid : String) (vel : ℚ) :
    ((place_drum w tid st dur sid vel).2).ctx.history_events_stack
      = w.state.events :: w.ctx.history_events_stack := by
  unfold place_drum push_undo_snapshot
  dsimp only
  split <;> rfl

theorem place_note_stack (w : World) (tid : ℤ) (st : TimeInput) (dur : ℤ)
    (sid : Option String) (pit : String) (vel : ℚ) :
    ((place_note w tid st dur sid pit vel).2).ctx.history_events_stack
      = w.state.events :: w.ctx.history_events_stack := by
  unfold place_note push_undo_snapshot
  dsimp only
  repeat' split
  all_goals rfl

theorem move_event_stack (w : World) (eid er : Option String) (delta : ℤ) :
    (move_event w eid er delta).ctx.history_events_stack
      = w.state.events :: w.ctx.history_events_stack := by
  unfold move_event push_undo_snapshot setEvents
  dsimp only
  repeat' split
  all_goals rfl

theorem delete_event_stack (w : World) (eid er : Option String) :
    (delete_event w eid er).ctx.history_events_stack
      = w.state.events :: w.ctx.history_events_stack := by
  unfold delete_event push_undo_snapshot setEvents
  dsimp only
  repeat' split
  all_goals rfl

theorem set_event_start_stack (w : World) (eid : String) (st : ℤ) :
    (set_event_start w eid st).ctx.history_events_stack
      = w.state.events :: w.ctx.history_events_stack := by
  unfold set_event_start push_undo_snapshot setEvents
  dsimp only
  repeat' split
  all_goals rfl

theorem set_pitch_stack (w : World) (eid er : Option String) (p : String) :
    (set_pitch w eid er p).ctx.history_events_stack
      = w.state.events :: w.ctx.history_events_stack := by
  unfold set_pitch push_undo_snapshot setEvents
  dsimp only
  repeat' split
  all_goals rfl

theorem transpose_event_stack (w : World) (eid er : Option String) (s : ℤ) :
    (transpose_event w eid er s).ctx.history_events_stack
      = w.state.events :: w.ctx.history_events_stack := by
  unfold transpose_event push_undo_snapshot setEvents
  dsimp only
  repeat' split
  all_goals rfl

theorem toggle_drum_step_stack (w : World) (tid st : ℤ) (sid : String)
    (dur : ℤ) (vel : ℚ) (tol : ℤ) :
    (toggle_drum_step w tid st sid dur vel tol).ctx.history_events_stack
      = w.state.events :: w.ctx.history_events_stack := by
  unfold toggle_drum_step push_undo_snapshot setEvents
  dsimp only
  split <;> rfl

theorem toggle_drum_stack (w : World) (tid st : ℤ) (dn : DrumName)
    (dur : ℤ) (vel : ℚ) :
    (toggle_drum w tid st dn dur vel).ctx.history_events_stack
      = w.state.events :: w.ctx.history_events_stack := by
  unfold toggle_drum push_undo_snapshot setEvents
  dsimp only
  split <;> rfl

theorem pattern_four_step_stack (tid : ℤ) (sid : String) (vel : ℚ)
    (w : World) (st : ℤ) :
    (pattern_four_step tid sid vel w st).ctx.history_events_stack
      = w.ctx.history_events_stack := by
  unfold pattern_four_step
  dsimp only
  split <;> rfl

theorem apply_pattern_four_stack (w : World) (tid : ℤ) (dn : DrumName)
    (vel : ℚ) (ow : Bool) :
    (apply_pattern_four w tid dn vel ow).ctx.history_events_stack
      = w.state.events :: w.ctx.history_events_stack := by
  unfold apply_pattern_four push_undo_snapshot setEvents
  dsimp only
  refine (foldl_stack _ ?_ _ _).trans ?_
  · intro w b
    exact foldl_stack _ (fun w s => pattern_four_step_stack _ _ _ _ _) _ _
  · cases ow <;> rfl

/-! ## C1 / C2: undo inverse and one-snapshot-per-call -/

/-- C1 (amended): for every non-composite mutating tool — `place_drum`,
`place_note`, `move_event`, `delete_event`, `set_event_start`, `set_pitch`,
`transpose_event`, `toggle_drum_step`, `toggle_drum`, `apply_pattern_four` —
running the tool and then `undo(1)` restores the event collection to a value
equal to the one before the call.  (`apply_drum_pattern` is excluded: each
internal `toggle_drum_step` pushes its own snapshot on top of the pattern's
own, so `undo(1)` only reverts the last internal toggle.) -/
theorem undo_one_inverts_each_simple_tool (w : World) :
    (∀ tid st dur sid vel,
      (undo (place_drum w tid st dur sid vel).2 1).state.events = w.state.events) ∧
    (∀ tid st dur sid pit vel,
      (undo (place_note w tid st dur sid pit vel).2 1).state.events = w.state.events) ∧
    (∀ eid er delta,
      (undo (move_event w eid er delta) 1).state.events = w.state.events) ∧
    (∀ eid er,
      (undo (delete_event w eid er) 1).state.events = w.state.events) ∧
    (∀ eid st,
      (undo (set_event_start w eid st) 1).state.events = w.state.events) ∧
    (∀ eid er p,
      (undo (set_pitch w eid er p) 1).state.events = w.state.events) ∧
    (∀ eid er s,
      (undo (transpose_event w eid er s) 1).state.events = w.state.events) ∧
    (∀ tid st sid dur vel tol,
      (undo (toggle_drum_step w tid st sid dur vel tol) 1).state.events = w.state.events) ∧
    (∀ tid st dn dur vel,
      (undo (toggle_drum w tid st dn dur vel) 1).state.events = w.state.events) ∧
    (∀ tid dn vel ow,
      (undo (apply_pattern_four w tid dn vel ow) 1).state.events = w.state.events) :=
  ⟨fun tid st dur sid vel =>
      undo_one_of_stack _ w _ (place_drum_stack w tid st dur sid vel),
   fun tid st dur sid pit vel =>
      undo_one_of_stack _ w _ (place_note_stack w tid st dur sid pit vel),
   fun eid er delta =>
      undo_one_of_stack _ w _ (move_event_stack w eid er delta),
   fun eid er =>
      undo_one_of_stack _ w _ (delete_event_stack w eid er),
   fun eid st =>
      undo_one_of_stack _ w _ (set_event_start_stack w eid st),
   fun eid er p =>
      undo_one_of_stack _ w _ (set_pitch_stack w eid er p),
   fun eid er s =>
      undo_one_of_stack _ w _ (transpose_event_stack w eid er s),
   fun tid st sid dur vel tol =>
      undo_one_of_stack _ w _ (toggle_drum_step_stack w tid st sid dur vel tol),
   fun tid st dn dur vel =>
      undo_one_of_stack _ w _ (toggle_drum_stack w tid st dn dur vel),
   fun tid dn vel ow =>
      undo_one_of_stack _ w _ (apply_pattern_four_stack w tid dn vel ow)⟩

/-- C1 counterexample: on the empty 1-bar project, `apply_drum_pattern`
with the four-on-the-floor pattern followed by `undo(1)` does NOT restore
the empty event collection — it leaves the three kicks created before the
last internal toggle. -/
theorem undo_one_after_apply_drum_pattern_ne :
    (undo (apply_drum_pattern world0 1 "four_on_the_floor" 1) 1).state.events
      ≠ world0.state.events :=
  fun h => absurd (congrArg List.length h) (by decide)

/-- C2 (amended): every non-composite mutating tool grows the snapshot
stack by exactly one entry, namely the pre-call event collection pushed on
top — even when the call ends up changing nothing.  (`apply_drum_pattern`
is excluded: it grows the stack by one plus one per internal toggle.) -/
theorem snapshot_stack_grows_by_one_each_simple_tool (w : World) :
    (∀ tid st dur sid vel,
      ((place_drum w tid st dur sid vel).2).ctx.history_events_stack
        = w.state.events :: w.ctx.history_events_stack) ∧
    (∀ tid st dur sid pit vel,
      ((place_note w tid st dur sid pit vel).2).ctx.history_events_stack
        = w.state.events :: w.ctx.history_events_stack) ∧
    (∀ eid er delta,
      (move_event w eid er delta).ctx.history_events_stack
        = w.state.events :: w.ctx.history_events_stack) ∧
    (∀ eid er,
      (delete_event w eid er).ctx.history_events_stack
        = w.state.events :: w.ctx.history_events_stack) ∧
    (∀ eid st,
      (set_event_start w eid st).ctx.history_events_stack
        = w.state.events :: w.ctx.history_events_stack) ∧
    (∀ eid er p,
      (set_pitch w eid er p).ctx.history_events_stack
        = w.state.events :: w.ctx.history_events_stack) ∧
    (∀ eid er s,
      (transpose_event w eid er s).ctx.history_events_stack
        = w.state.events :: w.ctx.history_events_stack) ∧
    (∀ tid st sid dur vel tol,
      (toggle_drum_step w tid st sid dur vel tol).ctx.history_events_stack
        = w.state.events :: w.ctx.history_events_stack) ∧
    (∀ tid st dn dur vel,
      (toggle_drum w tid st dn dur vel).ctx.history_events_stack
        = w.state.events :: w.ctx.history_events_stack) ∧
    (∀ tid dn vel ow,
      (apply_pattern_four w tid dn vel ow).ctx.history_events_stack
        = w.state.events :: w.ctx.history_events_stack) :=
  ⟨place_drum_stack w, place_note_stack w, move_event_stack w,
   delete_event_stack w, set_event_start_stack w, set_pitch_stack w,
   transpose_event_stack w, toggle_drum_step_stack w, toggle_drum_stack w,
   apply_pattern_four_stack w⟩

/-- C2 counterexample: one call of `apply_drum_pattern` (four-on-the-floor,
one bar, empty project) grows the snapshot stack by five entries, not one. -/
theorem apply_drum_pattern_stack_growth_ne_one :
    (apply_drum_pattern world0 1 "four_on_the_floor" 1).ctx.history_events_stack.length
      ≠ world0.ctx.history_events_stack.length + 1 := by
  decide

/-! ## C3: four-on-the-floor scenario -/

/-- C3: on the 120 BPM, 4-ticks-per-beat, 4/4, 1-bar project, toggling a
kick at tick 0 and then applying the four-on-the-floor pattern
(`apply_pattern_four`, the skip-if-exists pattern tool) yields exactly four
kick drum events at ticks 0, 4, 8, 12 on track 1 — the pre-existing tick-0
event is left alone — and a subsequent `undo(1)` restores exactly the
single tick-0 event. -/
theorem four_on_floor_scenario :
    (toggle_drum_step world0 1 0 "drum_kick_001" 1 (9/10) 0).state.events.map
        (fun e => (e.track_id, e.start_tick, e.sample_id, e.type))
      = [(1, 0, "drum_kick_001", TrackType.drum)] ∧
    (apply_pattern_four (toggle_drum_step world0 1 0 "drum_kick_001" 1 (9/10) 0)
        1 .kick (19/20) false).state.events.map
        (fun e => (e.track_id, e.start_tick, e.sample_id, e.type))
      = [(1, 0, "drum_kick_001", TrackType.drum),
         (1, 4, "drum_kick_001", TrackType.drum),
         (1, 8, "drum_kick_001", TrackType.drum),
         (1, 12, "drum_kick_001", TrackType.drum)] ∧
    (undo (apply_pattern_four (toggle_drum_step world0 1 0 "drum_kick_001" 1 (9/10) 0)
        1 .kick (19/20) false) 1).state.events
      = (toggle_drum_step world0 1 0 "drum_kick_001" 1 (9/10) 0).state.events :=
  ⟨by decide, by decide,
   undo_one_of_stack _ _ _ (apply_pattern_four_stack _ 1 .kick (19/20) false)⟩

/-! ## C4: toggle involution -/

/-- One `toggle_drum_step` call on a collection with no matching event:
explicit form of the resulting world (the create branch). -/
theorem toggle_drum_step_create (w : World) (tid st : ℤ) (sid : String)
    (dur : ℤ) (vel : ℚ) (tol : ℤ)
    (h : ∀ e ∈ w.state.events,
      ((e.type == TrackType.drum) && (e.track_id == tid) && (e.sample_id == sid) &&
        decide (|e.start_tick - w.state.clamp_tick st| ≤ tol)) = false) :
    toggle_drum_step w tid st sid dur vel tol =
      { state := { w.state with events := w.state.events ++
          [⟨new_id "e" w.next_id, tid, w.state.clamp_tick st, max 1 dur, .drum, sid, vel, none⟩] },
        ctx := { w.ctx with
          last_created_event_ids := w.ctx.last_created_event_ids ++ [new_id "e" w.next_id],
          history_events_stack := w.state.events :: w.ctx.history_events_stack },
        next_id := w.next_id + 1 } := by
  unfold toggle_drum_step push_undo_snapshot
  dsimp only
  rw [findIdx?_eq_none_of_all _ _ h]

/-- C4 (amended): with tolerance 0 and identical arguments, the
create-then-delete direction of the involution holds: when no event of the
collection matches (drum type, same track, same sample, same clamped start),
toggling twice returns the event collection to its pre-toggle value.  In
the delete-then-re-create direction the second call re-creates the event
with a freshly generated id (appended at the end, with the call's duration
and velocity), so the collection is not value-equal to the original
whenever the fresh id differs from the deleted event's id. -/
theorem toggle_drum_step_twice_no_match (w : World) (tid st : ℤ)
    (sid : String) (dur : ℤ) (vel : ℚ)
    (h : ∀ e ∈ w.state.events,
      ¬(e.type = TrackType.drum ∧ e.track_id = tid ∧ e.sample_id = sid ∧
        |e.start_tick - w.state.clamp_tick st| ≤ 0)) :
    (toggle_drum_step (toggle_drum_step w tid st sid dur vel 0)
        tid st sid dur vel 0).state.events = w.state.events := by
  have hb : ∀ e ∈ w.state.events,
      ((e.type == TrackType.drum) && (e.track_id == tid) && (e.sample_id == sid) &&
        decide (|e.start_tick - w.state.clamp_tick st| ≤ 0)) = false := by
    intro e he
    rw [Bool.eq_false_iff]
    simp only [ne_eq, Bool.and_eq_true, beq_iff_eq, decide_eq_true_eq]
    have := h e he
    tauto
  rw [toggle_drum_step_create w tid st sid dur vel 0 hb]
  unfold toggle_drum_step push_undo_snapshot setEvents
  simp only [ProjectState.clamp_tick] at hb ⊢
  dsimp only
  rw [findIdx?_append_singleton _ _ _ hb (by simp)]
  exact eraseIdx_append_length _ _

/-- C4 witness: on the empty project the double toggle at tick 3 leaves the
(empty) event collection unchanged. -/
theorem toggle_drum_step_twice_no_match_witness :
    (toggle_drum_step (toggle_drum_step world0 1 3 "drum_kick_001" 1 (9/10) 0)
        1 3 "drum_kick_001" 1 (9/10) 0).state.events = world0.state.events :=
  toggle_drum_step_twice_no_match world0 1 3 "drum_kick_001" 1 (9/10)
    (by intro e he; simp [world0, state0] at he)

/-- C4 counterexample (delete-then-re-create direction): starting from a
collection holding one matching kick with id `"k0"`, toggling twice with
identical arguments yields a collection whose single event carries the
freshly generated id, so it is not value-equal to the original. -/
theorem toggle_drum_step_twice_existing_ne :
    (toggle_drum_step (toggle_drum_step world_kick 1 0 "drum_kick_001" 1 (9/10) 0)
        1 0 "drum_kick_001" 1 (9/10) 0).state.events
      ≠ world_kick.state.events :=
  fun h => absurd (congrArg (List.map Event.id) h) (by decide)

/-! ## C9: undo leaves the reference context untouched -/

theorem resolve_last_created (ctx : ExecContext) :
    resolve_target ctx none (some "last_created") = ctx.last_created := by
  simp [resolve_target]

theorem findEvent_eq_none (evs : List Event) (tid : String)
    (h : ∀ e ∈ evs, e.id ≠ tid) : findEvent evs tid = none := by
  unfold findEvent
  rw [List.find?_eq_none]
  intro x hx
  simp [h x hx]

/-- C9: `undo` restores only the event collection — the `last_created` and
`last_selected` histories are untouched by any number of undo steps — and
when the `last_created` slot names an id absent from the collection (as
after undoing a creation), `move_event`, `delete_event`, `set_pitch` and
`transpose_event` targeting the `last_created` reference change no event
while still pushing their own undo snapshot. -/
theorem undo_keeps_refs_and_dangling_ref_is_noop :
    (∀ (w : World) (steps : ℕ),
      (undo w steps).ctx.last_created_event_ids = w.ctx.last_created_event_ids ∧
      (undo w steps).ctx.last_selected_event_ids = w.ctx.last_selected_event_ids) ∧
    (∀ (w : World) (tid : String) (delta semi : ℤ) (p : String),
      w.ctx.last_created = some tid →
      (∀ e ∈ w.state.events, e.id ≠ tid) →
      ((move_event w none (some "last_created") delta).state.events = w.state.events ∧
       (move_event w none (some "last_created") delta).ctx.history_events_stack
         = w.state.events :: w.ctx.history_events_stack) ∧
      ((delete_event w none (some "last_created")).state.events = w.state.events ∧
       (delete_event w none (some "last_created")).ctx.history_events_stack
         = w.state.events :: w.ctx.history_events_stack) ∧
      ((set_pitch w none (some "last_created") p).state.events = w.state.events ∧
       (set_pitch w none (some "last_created") p).ctx.history_events_stack
         = w.state.events :: w.ctx.history_events_stack) ∧
      ((transpose_event w none (some "last_created") semi).state.events = w.state.events ∧
       (transpose_event w none (some "last_created") semi).ctx.history_events_stack
         = w.state.events :: w.ctx.history_events_stack)) := by
  constructor
  · exact fun w steps => undo_ctx_histories steps w
  · intro w tid delta semi p hlc hne
    have hfind : findEvent w.state.events tid = none := findEvent_eq_none _ _ hne
    unfold ExecContext.last_created at hlc
    refine ⟨⟨?_, move_event_stack w none (some "last_created") delta⟩,
            ⟨?_, delete_event_stack w none (some "last_created")⟩,
            ⟨?_, set_pitch_stack w none (some "last_created") p⟩,
            ⟨?_, transpose_event_stack w none (some "last_created") semi⟩⟩
    · unfold move_event push_undo_snapshot
      dsimp only
      rw [resolve_last_created]
      dsimp only [ExecContext.last_created]
      rw [hlc]
      dsimp only
      split
      · rfl
      · rw [hfind]
    · unfold delete_event push_undo_snapshot setEvents
      dsimp only
      rw [resolve_last_created]
      dsimp only [ExecContext.last_created]
      rw [hlc]
      dsimp only
      split
      · rfl
      · dsimp only
        exact List.filter_eq_self.mpr (fun e he => by simp [hne e he])
    · unfold set_pitch push_undo_snapshot
      dsimp only
      rw [resolve_last_created]
      dsimp only [ExecContext.last_created]
      rw [hlc]
      dsimp only
      split
      · rfl
      · rw [hfind]
    · unfold transpose_event push_undo_snapshot
      dsimp only
      rw [resolve_last_created]
      dsimp only [ExecContext.last_created]
      rw [hlc]
      dsimp only
      split
      · rfl
      · rw [hfind]

/-- C9 witness: a world whose `last_created` history names the absent id
`"ghost"`: moving via the reference changes nothing and pushes exactly the
pre-call snapshot. -/
theorem undo_keeps_refs_and_dangling_ref_is_noop_witness :
    (move_event world_ghost none (some "last_created") 5).state.events
        = world_ghost.state.events ∧
    (move_event world_ghost none (some "last_created") 5).ctx.history_events_stack
        = world_ghost.state.events :: world_ghost.ctx.history_events_stack :=
  (undo_keeps_refs_and_dangling_ref_is_noop.2 world_ghost "ghost" 5 3 "C4"
    rfl (by intro e he; simp [world_ghost, state0] at he)).1

/-! ## C10: `set_pitch` stores the pitch string verbatim -/

/-- C10: `set_pitch` performs no validation or parsing of the supplied
pitch string: for EVERY string `p` (malformed ones included), when the
events split as `la ++ e :: lb` with `e` the first event carrying the
targeted id and `e` is melodic, the resulting collection is
`la ++ {e with pitch := p} :: lb` — the string is stored verbatim and all
other events are untouched.  (A nonempty id is required because Python's
`if not target_id` treats the empty string as no target.) -/
theorem set_pitch_stores_verbatim (w : World) (la lb : List Event) (e : Event)
    (p : String) (hsplit : w.state.events = la ++ e :: lb)
    (hfirst : ∀ x ∈ la, x.id ≠ e.id) (hid : e.id ≠ "")
    (hm : e.type = TrackType.melodic) :
    (set_pitch w (some e.id) none p).state.events
      = la ++ { e with pitch := some p } :: lb := by
  unfold set_pitch push_undo_snapshot resolve_target setEvents
  dsimp only
  rw [if_neg hid]
  have hfind : findEvent w.state.events e.id = some e := by
    unfold findEvent
    rw [hsplit, find?_append_of_none _ _ _ (fun x hx => by simp [hfirst x hx])]
    simp
  rw [hfind]
  dsimp only
  rw [if_pos hm, hsplit,
    updateFirst_append la lb e e.id _ hfirst rfl]

/-- C10 witness: the malformed pitch string `"xyz"` is stored verbatim on
the melodic event. -/
theorem set_pitch_stores_verbatim_witness :
    (set_pitch world_note (some "m1") none "xyz").state.events
      = [] ++ { id := "m1", track_id := 2, start_tick := 0, duration_tick := 4,
                type := TrackType.melodic, sample_id := "bass_A1_001",
                velocity := 17/20, pitch := some "xyz" } :: [] :=
  set_pitch_stores_verbatim world_note []
    [] ⟨"m1", 2, 0, 4, .melodic, "bass_A1_001", 17/20, some "A1"⟩ "xyz"
    rfl (by intro x hx; simp at hx) (by decide) rfl

/-! ## C5: pitch transpose round trip — decimal digit lemmas -/

theorem natDigitsGo_congr : ∀ (n f1 f2 : ℕ), n ≤ f1 → n ≤ f2 →
    natDigitsGo f1 n = natDigitsGo f2 n := by
  intro n
  induction n using Nat.strong_induction_on with
  | _ n ih =>
    intro f1 f2 h1 h2
    match f1, f2 with
    | 0, 0 => rfl
    | 0, f2 + 1 =>
      have : n = 0 := by omega
      subst this
      simp [natDigitsGo]
    | f1 + 1, 0 =>
      have : n = 0 := by omega
      subst this
      simp [natDigitsGo]
    | f1 + 1, f2 + 1 =>
      by_cases h : n < 10
      · simp [natDigitsGo, h]
      · have hd : n / 10 < n := Nat.div_lt_self (by omega) (by omega)
        simp only [natDigitsGo, if_neg h]
        rw [ih (n / 10) hd f1 f2 (by omega) (by omega)]

/-- Recursion equation of `natDigits`. -/
theorem natDigits_eq (n : ℕ) :
    natDigits n =
      if n < 10 then [Nat.digitChar n]
      else natDigits (n / 10) ++ [Nat.digitChar (n % 10)] := by
  by_cases h : n < 10
  · rw [if_pos h]
    match n with
    | 0 => rfl
    | m + 1 => simp [natDigits, natDigitsGo, h]
  · rw [if_neg h]
    obtain ⟨m, rfl⟩ : ∃ m, n = m + 1 := ⟨n - 1, by omega⟩
    show natDigitsGo (m + 1) (m + 1) = _
    rw [natDigitsGo, if_neg h]
    congr 1
    exact natDigitsGo_congr _ _ _ (by omega) (by omega)

theorem digitChar_mem_digitChars (d : ℕ) (h : d < 10) :
    Nat.digitChar d ∈ digitChars := by
  interval_cases d <;> decide

theorem natDigits_subset (n : ℕ) : ∀ c ∈ natDigits n, c ∈ digitChars := by
  induction n using Nat.strong_induction_on with
  | _ n ih =>
    intro c hc
    rw [natDigits_eq] at hc
    by_cases h : n < 10
    · rw [if_pos h] at hc
      simp only [List.mem_singleton] at hc
      exact hc ▸ digitChar_mem_digitChars n h
    · rw [if_neg h] at hc
      rcases List.mem_append.1 hc with hl | hr
      · exact ih (n / 10) (Nat.div_lt_self (by omega) (by omega)) c hl
      · simp only [List.mem_singleton] at hr
        exact hr ▸ digitChar_mem_digitChars (n % 10) (Nat.mod_lt _ (by omega))

theorem natDigits_ne_nil (n : ℕ) : natDigits n ≠ [] := by
  rw [natDigits_eq]
  split
  · simp
  · simp

theorem digitChar_toNat_sub (n : ℕ) (h : n < 10) :
    (Nat.digitChar n).toNat - 48 = n := by
  interval_cases n <;> decide

theorem mem_digitChars_isDigit (c : Char) (h : c ∈ digitChars) :
    c.isDigit = true := by
  fin_cases h <;> decide

theorem mem_digitChars_not_ws (c : Char) (h : c ∈ digitChars) :
    isWS c = false := by
  fin_cases h <;> decide

theorem mem_digitChars_toUpper (c : Char) (h : c ∈ digitChars) :
    c.toUpper = c := by
  fin_cases h <;> decide

theorem natDigits_foldl (n : ℕ) :
    ∀ a : ℕ, (natDigits n).foldl (fun a c => 10 * a + (c.toNat - 48)) a
      = a * 10 ^ (natDigits n).length + n := by
  induction n using Nat.strong_induction_on with
  | _ n ih =>
    intro a
    by_cases h : n < 10
    · rw [natDigits_eq, if_pos h]
      simp [List.foldl_cons, digitChar_toNat_sub n h]
      ring
    · rw [natDigits_eq, if_neg h]
      rw [List.foldl_append,
        ih (n / 10) (Nat.div_lt_self (by omega) (by omega)) a]
      simp only [List.foldl_cons, List.foldl_nil, List.length_append,
        List.length_singleton]
      rw [digitChar_toNat_sub (n % 10) (Nat.mod_lt _ (by omega)), pow_succ]
      have hdm : 10 * (n / 10) + n % 10 = n := Nat.div_add_mod n 10
      calc 10 * (a * 10 ^ (natDigits (n / 10)).length + n / 10) + n % 10
          = a * (10 ^ (natDigits (n / 10)).length * 10)
              + (10 * (n / 10) + n % 10) := by ring
        _ = a * (10 ^ (natDigits (n / 10)).length * 10) + n := by rw [hdm]

theorem digitsVal?_natDigits (n : ℕ) : digitsVal? (natDigits n) = some n := by
  unfold digitsVal?
  rw [if_pos]
  · unfold digitsVal
    rw [natDigits_foldl n 0]
    simp
  · refine ⟨natDigits_ne_nil n, ?_⟩
    rw [List.all_eq_true]
    exact fun c hc => mem_digitChars_isDigit c (natDigits_subset n c hc)

/-! ### strip / upper are the identity on rendered pitch strings -/

theorem dropWhile_eq_self_of {α : Type} (p : α → Bool) (l : List α)
    (h : ∀ c ∈ l, p c = false) : l.dropWhile p = l := by
  cases l with
  | nil => rfl
  | cons a as =>
    rw [List.dropWhile_cons, h a (by simp)]
    simp

theorem pyStrip_eq_self (l : List Char) (h : ∀ c ∈ l, isWS c = false) :
    pyStrip l = l := by
  unfold pyStrip
  rw [dropWhile_eq_self_of _ _ h,
    dropWhile_eq_self_of _ _ (fun c hc => h c (by simpa using hc)),
    List.reverse_reverse]

theorem pyInt?_natDigits (n : ℕ) : pyInt? (natDigits n) = some (n : ℤ) := by
  have hsub := natDigits_subset n
  have hstrip : pyStrip (natDigits n) = natDigits n :=
    pyStrip_eq_self _ (fun c hc => mem_digitChars_not_ws c (hsub c hc))
  unfold pyInt?
  rw [hstrip]
  cases hnd : natDigits n with
  | nil => exact absurd hnd (natDigits_ne_nil n)
  | cons d ds =>
    have hd : d ∈ digitChars := hsub d (by rw [hnd]; simp)
    have hm : ¬ d = '-' := by fin_cases hd <;> decide
    have hp : ¬ d = '+' := by fin_cases hd <;> decide
    dsimp only
    rw [if_neg hm, if_neg hp, ← hnd, digitsVal?_natDigits]
    rfl

/-! ### rendered pitch strings parse back to their components -/

theorem parse_pitch_chars_plain (c : Char) (j : ℕ) (m : ℤ) (hm : 0 ≤ m)
    (hup : c.toUpper = c) (hws : isWS c = false)
    (hidx : note_order.indexOf? (String.mk [c]) = some j) :
    parse_pitch_chars (c :: natDigits m.toNat) = some (j, m) := by
  have hsub := natDigits_subset m.toNat
  have hstrip : pyStrip (c :: natDigits m.toNat) = c :: natDigits m.toNat := by
    refine pyStrip_eq_self _ ?_
    intro x hx
    rcases List.mem_cons.1 hx with rfl | hx
    · exact hws
    · exact mem_digitChars_not_ws x (hsub x hx)
  have hupper : pyUpper (c :: natDigits m.toNat) = c :: natDigits m.toNat := by
    unfold pyUpper
    rw [List.map_cons, hup]
    congr 1
    exact List.map_congr_left
      (fun x hx => mem_digitChars_toUpper x (hsub x hx)) |>.trans (List.map_id _)
  unfold parse_pitch_chars
  rw [hstrip, hupper]
  cases hnd : natDigits m.toNat with
  | nil => exact absurd hnd (natDigits_ne_nil _)
  | cons d ds =>
    have hd : d ∈ digitChars := hsub d (by rw [hnd]; simp)
    have hsharp : ¬ d = '#' := by fin_cases hd <;> decide
    dsimp only
    rw [if_neg hsharp, hidx, ← hnd, pyInt?_natDigits]
    simp [Int.toNat_of_nonneg hm]

theorem parse_pitch_chars_sharp (c : Char) (j : ℕ) (m : ℤ) (hm : 0 ≤ m)
    (hup : c.toUpper = c) (hws : isWS c = false)
    (hidx : note_order.indexOf? (String.mk [c, '#']) = some j) :
    parse_pitch_chars (c :: '#' :: natDigits m.toNat) = some (j, m) := by
  have hsub := natDigits_subset m.toNat
  have hstrip : pyStrip (c :: '#' :: natDigits m.toNat)
      = c :: '#' :: natDigits m.toNat := by
    refine pyStrip_eq_self _ ?_
    intro x hx
    rcases List.mem_cons.1 hx with rfl | hx
    · exact hws
    · rcases List.mem_cons.1 hx with rfl | hx
      · decide
      · exact mem_digitChars_not_ws x (hsub x hx)
  have hupper : pyUpper (c :: '#' :: natDigits m.toNat)
      = c :: '#' :: natDigits m.toNat := by
    unfold pyUpper
    rw [List.map_cons, List.map_cons, hup]
    show _ :: _ :: List.map Char.toUpper (natDigits m.toNat) = _
    congr 1
    congr 1
    exact List.map_congr_left
      (fun x hx => mem_digitChars_toUpper x (hsub x hx)) |>.trans (List.map_id _)
  unfold parse_pitch_chars
  rw [hstrip, hupper]
  dsimp only
  rw [if_pos rfl, hidx, pyInt?_natDigits]
  simp [Int.toNat_of_nonneg hm]

/-- A canonically rendered pitch string parses back to its components. -/
theorem parse_pitch_render (j : ℕ) (hj : j < 12) (m : ℤ) (hm : 0 ≤ m) :
    parse_pitch (pitch_to_str j m) = some (j, m) := by
  have hir : intRepr m = natDigits m.toNat := by
    unfold intRepr
    rw [if_neg (by omega)]
  unfold parse_pitch pitch_to_str
  rw [hir]
  interval_cases j
  · exact parse_pitch_chars_plain 'C' 0 m hm (by decide) (by decide) (by decide)
  · exact parse_pitch_chars_sharp 'C' 1 m hm (by decide) (by decide) (by decide)
  · exact parse_pitch_chars_plain 'D' 2 m hm (by decide) (by decide) (by decide)
  · exact parse_pitch_chars_sharp 'D' 3 m hm (by decide) (by decide) (by decide)
  · exact parse_pitch_chars_plain 'E' 4 m hm (by decide) (by decide) (by decide)
  · exact parse_pitch_chars_plain 'F' 5 m hm (by decide) (by decide) (by decide)
  · exact parse_pitch_chars_sharp 'F' 6 m hm (by decide) (by decide) (by decide)
  · exact parse_pitch_chars_plain 'G' 7 m hm (by decide) (by decide) (by decide)
  · exact parse_pitch_chars_sharp 'G' 8 m hm (by decide) (by decide) (by decide)
  · exact parse_pitch_chars_plain 'A' 9 m hm (by decide) (by decide) (by decide)
  · exact parse_pitch_chars_sharp 'A' 10 m hm (by decide) (by decide) (by decide)
  · exact parse_pitch_chars_plain 'B' 11 m hm (by decide) (by decide) (by decide)

theorem findIdx?_lt_length {α : Type} (p : α → Bool) (l : List α) (i : ℕ)
    (h : l.findIdx? p = some i) : i < l.length := by
  induction l generalizing i with
  | nil => simp [List.findIdx?_nil] at h
  | cons a as ih =>
    rw [List.findIdx?_cons] at h
    by_cases hp : p a
    · rw [if_pos hp] at h
      cases h
      simp
    · rw [if_neg hp, List.findIdx?_succ] at h
      cases hfa : as.findIdx? p with
      | none => rw [hfa] at h; simp at h
      | some j =>
        rw [hfa] at h
        have h2 : j + 1 = i := Option.some.inj h
        have := ih j hfa
        simp only [List.length_cons]
        omega

/-- The note index produced by `_parse_pitch` is below 12. -/
theorem parse_pitch_idx_lt (p : String) (i : ℕ) (o : ℤ)
    (h : parse_pitch p = some (i, o)) : i < 12 := by
  unfold parse_pitch parse_pitch_chars at h
  split at h
  · split at h
    · split at h
      · rename_i heq
        have := findIdx?_lt_length _ _ _ heq
        simp only [note_order, List.length] at this
        obtain ⟨o2, _, hio⟩ := Option.map_eq_some.1 h
        cases hio
        omega
      · exact absurd h (by simp)
    · split at h
      · rename_i heq
        have := findIdx?_lt_length _ _ _ heq
        simp only [note_order, List.length] at this
        obtain ⟨o2, _, hio⟩ := Option.map_eq_some.1 h
        cases hio
        omega
      · exact absurd h (by simp)
  · exact absurd h (by simp)

/-- C5 (amended): for a pitch string `p` that parses as `(i, o)` AND is in
canonical rendered form (`p = pitch_to_str i o`, i.e. upper-case note letter
followed by the plain decimal octave), and any integer `s`, transposing by
`s` and then by `-s` returns exactly `p`, provided the total semitone value
stays nonnegative at both steps (`0 ≤ o*12+i+s` and `0 ≤ o*12+i`), so no
floor clamp occurs.  Non-canonical spellings that still parse (lower case,
surrounding whitespace, a signed octave like `+4`) come back re-rendered
canonically, not verbatim. -/
theorem transpose_pitch_round_trip (p : String) (i : ℕ) (o s : ℤ)
    (hp : parse_pitch p = some (i, o))
    (hcanon : p = pitch_to_str i o)
    (h1 : 0 ≤ o * 12 + (i : ℤ) + s)
    (h0 : 0 ≤ o * 12 + (i : ℤ)) :
    (transpose_pitch p s).bind (fun q => transpose_pitch q (-s)) = some p := by
  have hi : i < 12 := parse_pitch_idx_lt p i o hp
  have hi12 : (i : ℤ) < 12 := by exact_mod_cast hi
  have ho : 0 ≤ o := by omega
  unfold transpose_pitch
  rw [hp]
  dsimp only
  rw [if_neg (by omega)]
  rw [Option.some_bind]
  rw [parse_pitch_render ((o * 12 + (i : ℤ) + s).toNat % 12)
      (Nat.mod_lt _ (by omega)) (((o * 12 + (i : ℤ) + s).toNat / 12 : ℕ) : ℤ)
      (by positivity)]
  dsimp only
  have hT1 : ((o * 12 + (i : ℤ) + s).toNat : ℤ) = o * 12 + (i : ℤ) + s :=
    Int.toNat_of_nonneg h1
  have ht2 : (((o * 12 + (i : ℤ) + s).toNat / 12 : ℕ) : ℤ) * 12
      + (((o * 12 + (i : ℤ) + s).toNat % 12 : ℕ) : ℤ) + -s
      = o * 12 + (i : ℤ) := by omega
  rw [ht2, if_neg (by omega)]
  have hmod : (o * 12 + (i : ℤ)).toNat % 12 = i := by omega
  have hdiv : ((o * 12 + (i : ℤ)).toNat / 12 : ℕ) = o.toNat := by omega
  rw [hmod, hdiv, hcanon, Int.toNat_of_nonneg ho]

/-- C5 witness: `"C4"` transposed up 7 and back down 7 returns `"C4"`
(totals 55 and 48, both nonnegative). -/
theorem transpose_pitch_round_trip_witness :
    (transpose_pitch "C4" 7).bind (fun q => transpose_pitch q (-7))
      = some "C4" :=
  transpose_pitch_round_trip "C4" 0 4 7 (by decide) (by decide)
    (by decide) (by decide)

/-- C5 counterexample: `"c4"` parses successfully and never clamps with
`s = 1` (totals 49 and 48), yet the round trip returns the re-rendered
`"C4"`, not `"c4"`. -/
theorem transpose_pitch_round_trip_lowercase_ne :
    (transpose_pitch "c4" 1).bind (fun q => transpose_pitch q (-1))
        = some "C4" ∧
    parse_pitch "c4" = some (0, 4) ∧
    ("C4" : String) ≠ "c4" := by
  refine ⟨by decide, by decide, by decide⟩

/-! ## C6: `parse_time` -/

theorem splitCh_ne_nil (ch : Char) (l : List Char) : splitCh ch l ≠ [] := by
  cases l with
  | nil => simp [splitCh]
  | cons c cs =>
    unfold splitCh
    by_cases h : c = ch
    · simp [h]
    · rw [if_neg h]
      cases hs : splitCh ch cs <;> simp

theorem splitCh_no_mem (ch : Char) (l : List Char) (h : ch ∉ l) :
    splitCh ch l = [l] := by
  induction l with
  | nil => rfl
  | cons c cs ih =>
    have hc : ¬ c = ch := by rintro rfl; exact h (by simp)
    have hcs : ch ∉ cs := fun hx => h (by simp [hx])
    unfold splitCh
    rw [if_neg hc, ih hcs]

theorem splitCh_cons (ch c : Char) (cs : List Char) :
    splitCh ch (c :: cs)
      = if c = ch then [] :: splitCh ch cs
        else
          match splitCh ch cs with
          | [] => [[c]]
          | p :: ps => (c :: p) :: ps := rfl

theorem splitCh_eq_cons (ch : Char) (l : List Char) (h : ch ∈ l) :
    splitCh ch l
      = (l.takeWhile (fun c => c != ch))
        :: splitCh ch ((l.dropWhile (fun c => c != ch)).tail) := by
  induction l with
  | nil => simp at h
  | cons c cs ih =>
    by_cases hc : c = ch
    · subst hc
      rw [splitCh_cons, if_pos rfl, List.takeWhile_cons, List.dropWhile_cons]
      simp
    · have hcs : ch ∈ cs := by
        rcases List.mem_cons.1 h with rfl | hcs
        · exact absurd rfl hc
        · exact hcs
      have hb : (c != ch) = true := by simp [hc]
      rw [splitCh_cons, if_neg hc, ih hcs,
        List.takeWhile_cons, List.dropWhile_cons, hb]
      simp

theorem mem_dropWhile_of {α : Type} (p : α → Bool) (l : List α) (x : α)
    (hx : x ∈ l) (hp : p x = false) : x ∈ l.dropWhile p := by
  induction l with
  | nil => simp at hx
  | cons a as ih =>
    rw [List.dropWhile_cons]
    by_cases ha : p a
    · rw [if_pos ha]
      rcases List.mem_cons.1 hx with rfl | hxs
      · rw [hp] at ha; exact absurd ha (by simp)
      · exact ih hxs
    · rw [if_neg ha]; exact hx

theorem mem_pyStrip (l : List Char) (x : Char) (hx : x ∈ l)
    (hp : isWS x = false) : x ∈ pyStrip l := by
  unfold pyStrip
  rw [List.mem_reverse]
  refine mem_dropWhile_of _ _ _ ?_ hp
  rw [List.mem_reverse]
  exact mem_dropWhile_of _ _ _ hx hp

theorem digitsVal?_none_of_colon (l : List Char) (h : ':' ∈ l) :
    digitsVal? l = none := by
  unfold digitsVal?
  rw [if_neg]
  rintro ⟨_, hall⟩
  exact absurd (List.all_eq_true.1 hall ':' h) (by decide)

theorem pyInt?_none_of_colon (l : List Char) (h : ':' ∈ l) :
    pyInt? l = none := by
  have hmem : ':' ∈ pyStrip l := mem_pyStrip l ':' h (by decide)
  unfold pyInt?
  cases hs : pyStrip l with
  | nil => rfl
  | cons c rest =>
    rw [hs] at hmem
    dsimp only
    by_cases hc : c = '-'
    · rw [if_pos hc]
      have hr : ':' ∈ rest := by
        rcases List.mem_cons.1 hmem with h2 | h2
        · rw [hc] at h2; exact absurd h2 (by decide)
        · exact h2
      rw [digitsVal?_none_of_colon _ hr]
      rfl
    · rw [if_neg hc]
      by_cases hc2 : c = '+'
      · rw [if_pos hc2]
        have hr : ':' ∈ rest := by
          rcases List.mem_cons.1 hmem with h2 | h2
          · rw [hc2] at h2; exact absurd h2 (by decide)
          · exact h2
        rw [digitsVal?_none_of_colon _ hr]
        rfl
      · rw [if_neg hc2, digitsVal?_none_of_colon _ hmem]
        rfl

theorem parse_time_str_two_pieces (st : ProjectState) (s : String)
    (hc : ':' ∈ s.toList) (hc2 : ':' ∉ stepComp s) :
    st.parse_time (.str s) =
      match pyInt? (barComp s), pyInt? (stepComp s) with
      | some b, some k => .ok ((b - 1) * st.meta.ticks_per_bar + (k - 1))
      | _, _ => .error "invalid literal for int with base 10" := by
  unfold ProjectState.parse_time
  dsimp only
  rw [if_pos hc, splitCh_eq_cons ':' _ hc,
    splitCh_no_mem ':' ((s.toList.dropWhile (fun c => c != ':')).tail) hc2]
  rfl

theorem parse_time_str_unpack (st : ProjectState) (s : String)
    (hc : ':' ∈ s.toList) (hc2 : ':' ∈ stepComp s) :
    st.parse_time (.str s) = .error "values to unpack" := by
  unfold ProjectState.parse_time
  dsimp only
  rw [if_pos hc, splitCh_eq_cons ':' _ hc,
    splitCh_eq_cons ':' ((s.toList.dropWhile (fun c => c != ':')).tail) hc2]
  cases hs : splitCh ':'
      ((((s.toList.dropWhile (fun c => c != ':')).tail).dropWhile
        (fun c => c != ':')).tail) with
  | nil => exact absurd hs (splitCh_ne_nil _ _)
  | cons y ys => rfl

/-- C6: `parse_time` returns a raw integer tick unchanged; for a string it
fails with a raised `ValueError` exactly when the string has no `':'` or
its bar or step component (the text before / after the first `':'`) does
not parse as a Python integer, and on success it returns
`(bar-1) * ticks_per_bar + (step-1)` — it never silently coerces a
malformed string to a default tick. -/
theorem parse_time_spec (st : ProjectState) :
    (∀ t : ℤ, st.parse_time (.tick t) = .ok t) ∧
    (∀ s : String,
      (∃ e, st.parse_time (.str s) = .error e) ↔
        (':' ∉ s.toList ∨ pyInt? (barComp s) = none ∨ pyInt? (stepComp s) = none)) ∧
    (∀ (s : String) (b k : ℤ),
      ':' ∈ s.toList → pyInt? (barComp s) = some b → pyInt? (stepComp s) = some k →
      st.parse_time (.str s) = .ok ((b - 1) * st.meta.ticks_per_bar + (k - 1))) := by
  refine ⟨fun t => rfl, fun s => ?_, fun s b k hc hb hk => ?_⟩
  · by_cases hc : ':' ∈ s.toList
    · by_cases hc2 : ':' ∈ stepComp s
      · constructor
        · intro _
          exact Or.inr (Or.inr (pyInt?_none_of_colon _ hc2))
        · intro _
          exact ⟨_, parse_time_str_unpack st s hc hc2⟩
      · rw [parse_time_str_two_pieces st s hc hc2]
        cases hb : pyInt? (barComp s) with
        | none => simp
        | some b =>
          cases hk : pyInt? (stepComp s) with
          | none => simp
          | some k =>
            simp
            exact hc
    · constructor
      · intro _
        exact Or.inl hc
      · intro _
        refine ⟨"Invalid time format: " ++ s, ?_⟩
        unfold ProjectState.parse_time
        dsimp only
        rw [if_neg hc]
  · have hc2 : ':' ∉ stepComp s := fun hmem =>
      by rw [pyInt?_none_of_colon _ hmem] at hk; exact Option.noConfusion hk
    rw [parse_time_str_two_pieces st s hc hc2, hb, hk]

/-- C6 witness: on the 16-ticks-per-bar project, `"3:2"` parses to
`(3-1)*16 + (2-1) = 33`, and the theorem's success equation instantiates to
it. -/
theorem parse_time_spec_witness :
    state0.parse_time (.str "3:2")
      = .ok ((3 - 1) * state0.meta.ticks_per_bar + (2 - 1)) :=
  (parse_time_spec state0).2.2 "3:2" 3 2 (by decide) (by decide) (by decide)

/-! ## C7: renderer gain stage -/

/-- C7 (amended): the gain applied to an event's audio is
`trackVolume * velocity` for every velocity in `(0, 1]`; a velocity of
exactly `0.0` is Python-falsy, so — like an absent/`None` value — it is
replaced by `1.0` (`ev.velocity or 1.0`), giving gain `trackVolume * 1`
rather than `trackVolume * 0`. -/
theorem event_gain_spec (vol v : ℚ) (h0 : 0 < v) (_h1 : v ≤ 1) :
    event_gain vol v = vol * v ∧ event_gain vol 0 = vol * 1 := by
  constructor
  · unfold event_gain event_vel
    rw [if_neg h0.ne']
  · unfold event_gain event_vel
    rw [if_pos rfl]

/-- C7 witness: track volume 3/4 and velocity 1/2 give gain exactly
`3/4 * 1/2`. -/
theorem event_gain_spec_witness :
    event_gain (3/4) (1/2) = 3/4 * (1/2) ∧ event_gain (3/4) 0 = 3/4 * 1 :=
  event_gain_spec (3/4) (1/2) (by norm_num) (by norm_num)

/-- C7 counterexample: an event carrying velocity `0.0` (a present value,
not an absent one) is scaled by `trackVolume * 1.0` — the code's `or 1.0`
treats the falsy `0.0` as missing — so the gain is NOT
`trackVolume * eventVelocity`. -/
theorem event_gain_zero_velocity_ne :
    event_gain (3/4) 0 = 3/4 ∧ ((3/4 : ℚ) ≠ 3/4 * 0) := by
  constructor
  · unfold event_gain event_vel
    rw [if_pos rfl]
    norm_num
  · norm_num

/-! ## C8: silence on an empty region -/

theorem foldl_id {α β : Type} (f : β → α → β) (l : List α)
    (h : ∀ acc x, x ∈ l → f acc x = acc) :
    ∀ acc, l.foldl f acc = acc := by
  induction l with
  | nil => intro acc; rfl
  | cons a as ih =>
    intro acc
    rw [List.foldl_cons, h acc a (by simp)]
    exact ih (fun acc x hx => h acc x (by simp [hx])) acc

theorem peak_abs_replicate_zero (n : ℕ) :
    peak_abs (List.replicate n ((0 : ℚ), (0 : ℚ))) = 0 := by
  induction n with
  | zero => rfl
  | succ m ih =>
    unfold peak_abs at ih ⊢
    rw [List.replicate_succ, List.foldl_cons]
    simpa using ih

theorem master_limit_replicate_zero (n : ℕ) :
    master_limit (List.replicate n ((0 : ℚ), (0 : ℚ)))
      = List.replicate n ((0 : ℚ), (0 : ℚ)) := by
  unfold master_limit
  rw [peak_abs_replicate_zero]
  norm_num

/-- C8: rendering a region whose tick range contains no active event (every
event starts outside the region or sits on an inactive track) yields an
all-zero stereo buffer of
`ceil(regionTicks / ticksPerBeat * (60/bpm) * sampleRate) + 1` frames, and
the master safety stage leaves that all-zero buffer unchanged. -/
theorem render_mix_empty_region (state : ProjectState)
    (loadSample : String → Option (List (ℚ × ℚ)))
    (panLaw : ℚ → ℚ × ℚ) (region : Option RenderRegion) (sr : ℤ)
    (h : ∀ e ∈ state.events,
      (e.start_tick < (region_range state region).1 ∨
        e.start_tick ≥ (region_range state region).2) ∨
      ¬ track_active state.tracks (state.tracks.any (fun t => t.solo)) e.track_id) :
    render_mix state loadSample panLaw region sr
      = List.replicate
          ((⌈((max 0 ((region_range state region).2 - (region_range state region).1) : ℤ)
                : ℚ) / (state.meta.ticks_per_beat : ℚ)
              * (60 / (state.meta.bpm : ℚ)) * (sr : ℚ)⌉ + 1).toNat)
          ((0 : ℚ), (0 : ℚ)) := by
  unfold render_mix
  dsimp only
  rw [foldl_id _ _ ?_]
  · exact master_limit_replicate_zero _
  · intro acc e he
    rcases h e he with hrange | hactive
    · rw [if_pos hrange]
    · by_cases hr : e.start_tick < (region_range state region).1 ∨
        e.start_tick ≥ (region_range state region).2
      · rw [if_pos hr]
      · rw [if_neg hr, if_pos hactive]

/-- C8 witness: a one-bar project at 60 BPM with one tick per (single-beat)
bar and sample rate 1: the one-tick region is one second, so the buffer is
`ceil(1) + 1 = 2` zero frames. -/
theorem render_mix_empty_region_witness :
    render_mix state_render (fun _ => none) (fun _ => (1, 1))
        (some ⟨1, 1⟩) 1
      = List.replicate
          ((⌈((max 0 ((region_range state_render (some ⟨1, 1⟩)).2
                  - (region_range state_render (some ⟨1, 1⟩)).1) : ℤ)
                : ℚ) / (state_render.meta.ticks_per_beat : ℚ)
              * (60 / (state_render.meta.bpm : ℚ)) * ((1 : ℤ) : ℚ)⌉ + 1).toNat)
          ((0 : ℚ), (0 : ℚ)) :=
  render_mix_empty_region state_render (fun _ => none) (fun _ => (1, 1))
    (some ⟨1, 1⟩) 1 (by intro e he; simp [state_render] at he)

end Thiren
